import Mathlib

/-!
Verification development for src/create_sample_file.py of the
cmsaf/metadata-standard repository.

The Python program builds a sample gridded dataset: coordinate axes with
bounds, synthetic fields (cloud fraction, observation counts, quality
flags, sunshine duration), a record-status array, and a void-timestamp
masking pass. The shallow embedding below translates those computations
into Lean. Machine floats are modelled by rationals; the transcendental
kernels (sine, cosine, square root, degree-to-radian conversion) and the
external image-rotation routine are abstracted as function parameters,
since only their call structure lives in this repository. An IEEE
division whose divisor is zero is modelled by Option (none standing for
the NaN produced by numpy), and the NaN value of a masked cell is also
modelled by none.
-/

namespace Gerda

/-- Three-dimensional array, modelled as nested lists: outer index time,
then latitude, then longitude. -/
abbrev Arr3 (α : Type) := List (List (List α))

/-- Per-cell data of one variable of a dataset group: a total function of
the (time, lat, lon) position; none models a NaN cell. -/
abbrev VarData : Type := ℕ → ℕ → ℕ → Option ℚ

/-- Build a three-dimensional array of the given sizes from a cell
function, mirroring numpy array construction followed by per-index fill. -/
def mk3 {α : Type} (n1 n2 n3 : ℕ) (f : ℕ → ℕ → ℕ → α) : Arr3 α :=
  (List.range n1).map fun t =>
    (List.range n2).map fun i =>
      (List.range n3).map fun j => f t i j

/-- Read one cell of a three-dimensional array; none when out of range. -/
def get3 {α : Type} (a : Arr3 α) (t i j : ℕ) : Option α :=
  a[t]?.bind fun p => p[i]?.bind fun r => r[j]?

/-- Shape predicate for two-dimensional arrays (rows, cols). -/
def HasShape2 {α : Type} (m : List (List α)) (r c : ℕ) : Prop :=
  m.length = r ∧ ∀ row ∈ m, row.length = c

/-- Shape predicate for three-dimensional arrays. -/
def HasShape3 {α : Type} (a : Arr3 α) (n1 n2 n3 : ℕ) : Prop :=
  a.length = n1 ∧ ∀ p ∈ a, p.length = n2 ∧ ∀ r ∈ p, r.length = n3

/-- Round to the nearest integer, ties to even, the rounding mode of
numpy round. -/
def roundHalfToEven (q : ℚ) : ℤ :=
  if q - ⌊q⌋ < 1 / 2 then ⌊q⌋
  else if 1 / 2 < q - ⌊q⌋ then ⌊q⌋ + 1
  else if ⌊q⌋ % 2 = 0 then ⌊q⌋ else ⌊q⌋ + 1

/-- Rounding to 2 decimal places, as numpy round with decimals equal 2,
used on the cloud fraction field (src line 291). -/
def round2 (q : ℚ) : ℚ := (roundHalfToEven (q * 100) : ℚ) / 100

/-- Rounding to 1 decimal place, as numpy round with decimals equal 1,
used on the lon and lat axes (src lines 77 and 100). -/
def round1 (q : ℚ) : ℚ := (roundHalfToEven (q * 10) : ℚ) / 10

/-- Embedding of numpy arange over exact rationals: the element count is
the ceiling of (stop - start) / step and element i is start + i * step. -/
def arange (start stop step : ℚ) : List ℚ :=
  (List.range (max 0 ⌈(stop - start) / step⌉).toNat).map fun i : ℕ => start + (i : ℚ) * step

/-- DataTreeMaker.get_lon, src lines 76-77: arange from lon_min to
lon_max + dlon with step dlon, rounded to one decimal place. -/
def get_lon (lon_min lon_max dlon : ℚ) : List ℚ :=
  (arange lon_min (lon_max + dlon) dlon).map round1

/-- DataTreeMaker.get_lat, src lines 99-100: arange from lat_min to
lat_max + dlat with step dlat, rounded to one decimal place. -/
def get_lat (lat_min lat_max dlat : ℚ) : List ℚ :=
  (arange lat_min (lat_max + dlat) dlat).map round1

/-- DataTreeMaker.get_time, src lines 53-56: the dateutil rrule with
daily frequency yields one value per day from tstart to tend inclusive,
and the empty list when tend is before tstart. Days are modelled as
integers. -/
def get_time (tstart tend : ℤ) : List ℤ :=
  if tend < tstart then []
  else (List.range (tend - tstart + 1).toNat).map fun i : ℕ => tstart + (i : ℤ)

/-- DataTreeMaker._get_bounds, src lines 203-210: per coordinate value a
lower and upper bound, policy left or center; any other alignment string
raises NotImplementedError, modelled by none. -/
def get_bounds (coords : List ℚ) (resol : ℚ) (align : String) : Option (List (ℚ × ℚ)) :=
  if align = "left" then
    some (coords.map fun c => (c, c + resol))
  else if align = "center" then
    some (coords.map fun c => (c - 0.5 * resol, c + 0.5 * resol))
  else none

/-- RecordStatus.get_record_status, src lines 218-221: for each time
index i of the axis, code 1 when i is in the void list, else 0, in an
unsigned 8 bit array. -/
def get_record_status (ntime : ℕ) (tvoid : List ℕ) : List ℕ :=
  (List.range ntime).map fun i => if i ∈ tvoid then 1 else 0

/-- IEEE-style division of rationals: a divisor of zero gives none,
modelling the NaN or infinity produced by numpy float division. -/
def fdiv (a b : ℚ) : Option ℚ := if b = 0 then none else some (a / b)

/-- Clouds._get_nobs, src lines 297-298: times is range of the time size
and tmax is the Python max of that list, which raises ValueError on an
empty list; the error is modelled by none. -/
def nobs_tmax (ntime : ℕ) : Option ℕ := (List.range ntime).max?

/-- Span term of Clouds._get_nobs, src line 306: the expression
(lon_max - lon_min) / 2 * t / float(tmax). When tmax is zero this is a
division by zero; no special case exists in the source. -/
def span_term (lonMin lonMax : ℚ) (t tmax : ℕ) : Option ℚ :=
  fdiv ((lonMax - lonMin) / 2 * (t : ℚ)) (tmax : ℚ)

/-- Cast of a nonnegative float to an unsigned 8 bit integer as numpy
performs it on assignment: truncate toward zero, reduce modulo 256. -/
def toUint8 (q : ℚ) : ℕ := (Int.toNat ⌊q⌋) % 256

/-- One cell of Clouds._get_nobs, src lines 299-311, with the sine and
the degree-to-radian conversion abstracted as parameters s and d:
96 * sin(t / 5 * deg2rad(lon + span) * deg2rad(lat)) squared, cast to
unsigned 8 bit; none when the span term divided by zero. -/
def nobsPoint (s d : ℚ → ℚ) (lonMin lonMax : ℚ) (t tmax : ℕ) (lat lon : ℚ) : Option ℕ :=
  (span_term lonMin lonMax t tmax).map fun span =>
    toUint8 (96 * (s ((t : ℚ) / 5 * d (lon + span) * d lat)) ^ 2)

/-- Clouds._get_nobs, src lines 293-321: none models the ValueError
raised by max on an empty time axis; each cell is nobsPoint with lon_min
and lon_max the extremes of the lon axis. -/
def get_nobs (s d : ℚ → ℚ) (lats lons : List ℚ) (ntime : ℕ) : Option (Arr3 (Option ℕ)) :=
  (nobs_tmax ntime).map fun tmax =>
    mk3 ntime lats.length lons.length fun t i j =>
      nobsPoint s d (lons.min?.getD 0) (lons.max?.getD 0) t tmax
        (lats.getD i 0) (lons.getD j 0)

/-- Raw cloud fraction value of Clouds._get_cfc, src lines 271-274, with
sine, cosine and degree-to-radian conversion abstracted as parameters:
100 * sin(t / 5 * deg2rad(lon)) squared * cos(t / 10 * deg2rad(lat))
squared. -/
def cfcRaw (s c d : ℚ → ℚ) (t : ℕ) (lat lon : ℚ) : ℚ :=
  100 * (s ((t : ℚ) / 5 * d lon)) ^ 2 * (c ((t : ℚ) / 10 * d lat)) ^ 2

/-- One cell of Clouds._get_cfc after the validity filter of src line
287 (keep values below 10 or above 20, every other cell becomes NaN)
and the rounding of src line 291, applied in that order. -/
def cfcPoint (s c d : ℚ → ℚ) (t : ℕ) (lat lon : ℚ) : Option ℚ :=
  (if cfcRaw s c d t lat lon < 10 ∨ 20 < cfcRaw s c d t lat lon
   then some (cfcRaw s c d t lat lon) else none).map round2

/-- Clouds._get_cfc, src lines 269-291, as a three-dimensional array
over the time, lat and lon axes. -/
def get_cfc (s c d : ℚ → ℚ) (ntime : ℕ) (lats lons : List ℚ) : Arr3 (Option ℚ) :=
  mk3 ntime lats.length lons.length fun t i j =>
    cfcPoint s c d t (lats.getD i 0) (lons.getD j 0)

/-- Quality code of one latitude, Clouds._get_quality src lines 326-332:
the array starts at zero, then the three latitude-band masks overwrite
rows in sequence, so a latitude whose magnitude is exactly 30 or exactly
65 matches no band and keeps the initial zero. -/
def qualityOf (lat : ℚ) : ℕ :=
  let q0 : ℕ := 0
  let q1 : ℕ := if |lat| < 30 then 0 else q0
  let q2 : ℕ := if 30 < |lat| ∧ |lat| < 65 then 1 else q1
  if 65 < |lat| then 2 else q2

/-- Clouds._get_quality, src lines 323-341: each cell of the array holds
the quality code of its latitude, independent of time and longitude. -/
def get_quality (ntime : ℕ) (lats lons : List ℚ) : Arr3 ℕ :=
  mk3 ntime lats.length lons.length fun _ i _ => qualityOf (lats.getD i 0)

/-- Fixed padding factor of the heart mask, src line 352. -/
def heart_extent : ℚ := 1.2

/-- Element i of numpy linspace from a to b with n points: a alone when
n is at most one, otherwise a + i * (b - a) / (n - 1). -/
def linVal (a b : ℚ) (n : ℕ) (i : ℕ) : ℚ :=
  if n ≤ 1 then a else a + (i : ℚ) * (b - a) / ((n : ℚ) - 1)

/-- Numpy linspace over exact rationals, the semantics of the ogrid
expression of src line 356. -/
def linspace (a b : ℚ) (n : ℕ) : List ℚ :=
  (List.range n).map (linVal a b n)

/-- One cell of the boolean heart mask of Radiation.get_sdu, src lines
356-363, with the square root abstracted as parameter sq: the y axis is
linspace from 1 to -1 over the rows, the x axis linspace from -1 to 1
over the columns, both scaled by heart_extent, and the cell is true when
x squared + (5 y / 4 - sqrt of the absolute value of x) squared - 1 is
at most zero. -/
def heartVal (sq : ℚ → ℚ) (rows cols : ℕ) (i j : ℕ) : Bool :=
  let y : ℚ := linVal 1 (-1) rows i * heart_extent
  let x : ℚ := linVal (-1) 1 cols j * heart_extent
  decide (x ^ 2 + (5 * y / 4 - sq |x|) ^ 2 - 1 ≤ 0)

/-- Boolean heart mask over the full grid, src lines 356-363. -/
def heartMask (sq : ℚ → ℚ) (rows cols : ℕ) : List (List Bool) :=
  (List.range rows).map fun i => (List.range cols).map fun j => heartVal sq rows cols i j

/-- Heart mask cast to floats, true to 1 and false to 0, the conversion
the rotation routine performs on its boolean input. -/
def heartFloat (sq : ℚ → ℚ) (rows cols : ℕ) : List (List ℚ) :=
  (heartMask sq rows cols).map fun row => row.map fun b => if b then (1 : ℚ) else 0

/-- Radiation.get_sdu, src lines 351-379: for timestep i of ntime the
field is the heart mask rotated by 360 * i / ntime degrees; the external
scipy rotation routine is abstracted as parameter rot. -/
def get_sdu (sq : ℚ → ℚ) (rot : ℚ → List (List ℚ) → List (List ℚ))
    (ntime rows cols : ℕ) : Arr3 ℚ :=
  (List.range ntime).map fun i : ℕ =>
    rot (360 * (i : ℚ) / (ntime : ℚ)) (heartFloat sq rows cols)

/-- Dataset group as the masking pass sees it: the shared time axis and,
for each variable name, its cell data. -/
structure DsGroup where
  time : List ℚ
  vars : String → VarData

/-- Variable after Mask.mask_timestamps rewrote it, src lines 242-243:
where the time value of the position occurs among the gathered void time
values the cell becomes the fill value, elsewhere it is unchanged. -/
def maskedVar (time timeToMask : List ℚ) (fill : Option ℚ) (v : VarData) : VarData :=
  fun t i j => if time.getD t 0 ∈ timeToMask then fill else v t i j

/-- One iteration of the loop of Mask.mask_timestamps, src lines
241-243: replace the named variable by its masked form. -/
def maskStep (time timeToMask : List ℚ) (acc : DsGroup) (p : String × Option ℚ) : DsGroup :=
  { acc with
    vars := fun nm =>
      if nm = p.1 then maskedVar time timeToMask p.2 (acc.vars p.1) else acc.vars nm }

/-- Mask.mask_timestamps, src lines 238-243: gather the time values at
the void positions (fancy indexing raises IndexError when a position is
out of range, modelled by none), then rewrite each variable of the
fill-value map in turn. -/
def mask_timestamps (void : List ℕ) (ds : DsGroup)
    (varsToMask : List (String × Option ℚ)) : Option DsGroup :=
  if void.all (fun i => decide (i < ds.time.length)) then
    some (varsToMask.foldl
      (maskStep ds.time (void.map fun i => ds.time.getD i 0)) ds)
  else none

/-- Lookup of a key in an association list with string keys, the
embedding of a Python dict access. -/
def lookupKey {α : Type} (nm : String) : List (String × α) → Option α
  | [] => none
  | p :: rest => if nm = p.1 then some p.2 else lookupKey nm rest

/-- Attribute key named title. -/
def keyTitle : String := "title"

/-- Attribute key named variable_id. -/
def keyVariableId : String := "variable_id"

/-- Attribute value Clouds. -/
def valClouds : String := "Clouds"

/-- Attribute value sdu. -/
def valSdu : String := "sdu"

/-- Attribute value cfc_dm. -/
def valCfcDm : String := "cfc_dm"

/-- Group attributes of Clouds.get_dataset, src lines 261-264. -/
def clouds_dataset_attrs : List (String × String) :=
  [(keyTitle, valClouds), (keyVariableId, valCfcDm)]

/-- Group attributes of Radiation.get_dataset, src lines 386-389: the
title literal in the source reads Clouds, not Radiation. -/
def radiation_dataset_attrs : List (String × String) :=
  [(keyTitle, valClouds), (keyVariableId, valSdu)]

/-- Alignment string center, for concrete instantiations. -/
def alignCenter : String := "center"

/-- Alignment string left, for concrete instantiations. -/
def alignLeft : String := "left"

/-- Variable name used by the concrete masking example. -/
def nmA : String := "a"

/-- Second variable name used by the concrete masking example. -/
def nmB : String := "b"

/-- Concrete example group for the masking witness: distinct time values
10, 20, 30; variable a holds the sum of its indices, every other name
holds the constant 99. -/
def dsEx : DsGroup :=
  { time := [10, 20, 30]
    vars := fun nm =>
      if nm = nmA then (fun t i j => some ((t : ℚ) + (i : ℚ) + (j : ℚ)))
      else fun _ _ _ => some 99 }

/-- Reading a cell of a built array inside its bounds gives the cell
function value. -/
theorem get3_mk3 {α : Type} (n1 n2 n3 : ℕ) (f : ℕ → ℕ → ℕ → α) (t i j : ℕ)
    (ht : t < n1) (hi : i < n2) (hj : j < n3) :
    get3 (mk3 n1 n2 n3 f) t i j = some (f t i j) := by
  simp [get3, mk3, List.getElem?_map, List.getElem?_range, ht, hi, hj]

/-- Built arrays have the shape they were built with. -/
theorem mk3_shape {α : Type} (n1 n2 n3 : ℕ) (f : ℕ → ℕ → ℕ → α) :
    HasShape3 (mk3 n1 n2 n3 f) n1 n2 n3 := by
  refine ⟨by simp [mk3], ?_⟩
  intro p hp
  simp only [mk3, List.mem_map, List.mem_range] at hp
  obtain ⟨t, _, rfl⟩ := hp
  refine ⟨by simp, ?_⟩
  intro r hr
  simp only [List.mem_map, List.mem_range] at hr
  obtain ⟨i, _, rfl⟩ := hr
  simp

/-- Claim C2: the record status array has exactly one unsigned 8 bit
code per time position, the code at position t is 1 exactly when t is in
the void list and 0 otherwise, and no run produces code 2. -/
theorem record_status_spec (ntime : ℕ) (tvoid : List ℕ) :
    (get_record_status ntime tvoid).length = ntime ∧
    (∀ t, t < ntime →
      ((get_record_status ntime tvoid).getD t 0 = 1 ↔ t ∈ tvoid) ∧
      ((get_record_status ntime tvoid).getD t 0 = 0 ↔ t ∉ tvoid)) ∧
    ∀ x ∈ get_record_status ntime tvoid, x < 256 ∧ x ≠ 2 := by
  refine ⟨by simp [get_record_status], ?_, ?_⟩
  · intro t ht
    have hlen : t < (get_record_status ntime tvoid).length := by
      simpa [get_record_status] using ht
    rw [List.getD_eq_getElem _ _ hlen]
    simp only [get_record_status, List.getElem_map, List.getElem_range]
    by_cases h : t ∈ tvoid <;> simp [h]
  · intro x hx
    simp only [get_record_status, List.mem_map, List.mem_range] at hx
    obtain ⟨i, _, rfl⟩ := hx
    by_cases h : i ∈ tvoid <;> simp [h]

/-- Witness for claim C2 at a concrete axis of three positions with void
position 1. -/
theorem record_status_witness :
    (get_record_status 3 [1]).length = 3 ∧
    ((get_record_status 3 [1]).getD 1 0 = 1 ↔ 1 ∈ [1]) ∧
    ((get_record_status 3 [1]).getD 2 0 = 0 ↔ 2 ∉ [1]) :=
  ⟨(record_status_spec 3 [1]).1,
   ((record_status_spec 3 [1]).2.1 1 (by decide)).1,
   ((record_status_spec 3 [1]).2.1 2 (by decide)).2⟩

/-- Claim C3: with the end day before the start day the time axis is the
empty sequence, but dataset construction does not complete, because
Clouds._get_nobs takes the Python max of the empty index list, which
raises ValueError; the run therefore errors instead of producing a
zero-length dataset. -/
theorem empty_time_range_nobs_error :
    get_time 7306 7305 = [] ∧
    ∀ s d lats lons, get_nobs s d lats lons (get_time 7306 7305).length = none := by
  refine ⟨by decide, ?_⟩
  intro s d lats lons
  have h1 : (get_time 7306 7305).length = 0 := by decide
  rw [h1]
  rfl

/-- Claim C4: with exactly one timestep the last time index tmax is 0
and the span term of Clouds._get_nobs performs a division whose divisor
is zero, for every longitude range and timestep; no special case
prevents it, so the span term is undefined (NaN) rather than 0. -/
theorem single_timestep_nobs_divzero :
    nobs_tmax 1 = some 0 ∧
    ∀ lonMin lonMax : ℚ, ∀ t : ℕ, span_term lonMin lonMax t 0 = none := by
  refine ⟨by decide, ?_⟩
  intro a b t
  simp [span_term, fdiv]

/-- Claim C6: bounds arrays have exactly one lower and upper pair per
coordinate value, and under center alignment with a uniform spacing
equal to the resolution the upper bound of each cell equals the lower
bound of the next. -/
theorem get_bounds_spec (coords : List ℚ) (resol : ℚ) (align : String)
    (bs : List (ℚ × ℚ)) (hbs : get_bounds coords resol align = some bs) :
    bs.length = coords.length ∧
    (align = "center" →
      (∀ k, k + 1 < coords.length → coords.getD (k + 1) 0 = coords.getD k 0 + resol) →
      ∀ k, k + 1 < bs.length → (bs.getD k (0, 0)).2 = (bs.getD (k + 1) (0, 0)).1) := by
  unfold get_bounds at hbs
  split at hbs
  case isTrue hleft =>
    obtain rfl := Option.some.inj hbs
    refine ⟨by simp, ?_⟩
    intro hc
    exact absurd (hleft.symm.trans hc) (by decide)
  case isFalse h1 =>
    split at hbs
    case isTrue hcen =>
      obtain rfl := Option.some.inj hbs
      refine ⟨by simp, ?_⟩
      intro _ huni k hk
      have hk2 : k + 1 < coords.length := by simpa using hk
      have hk1 : k < coords.length := Nat.lt_of_succ_lt hk2
      rw [List.getD_eq_getElem _ _ (by simpa using hk1),
        List.getD_eq_getElem _ _ (by simpa using hk2)]
      simp only [List.getElem_map]
      have hu := huni k hk2
      rw [List.getD_eq_getElem _ _ hk2, List.getD_eq_getElem _ _ hk1] at hu
      rw [hu]
      ring
    case isFalse h2 =>
      exact Option.noConfusion hbs

/-- Witness for claim C6 at the coordinates 0, 1, 2 with resolution 1
under center alignment. -/
theorem get_bounds_center_witness :
    ([((-1 : ℚ)/2, 1/2), (1/2, 3/2), (3/2, 5/2)] : List (ℚ × ℚ)).length =
      ([(0 : ℚ), 1, 2]).length ∧
    (([((-1 : ℚ)/2, 1/2), (1/2, 3/2), (3/2, 5/2)] : List (ℚ × ℚ)).getD 0 (0, 0)).2 =
      (([((-1 : ℚ)/2, 1/2), (1/2, 3/2), (3/2, 5/2)] : List (ℚ × ℚ)).getD 1 (0, 0)).1 := by
  have hbs : get_bounds [0, 1, 2] 1 alignCenter =
      some [((-1 : ℚ)/2, 1/2), (1/2, 3/2), (3/2, 5/2)] := by
    unfold get_bounds
    rw [if_neg (by decide), if_pos (by rfl)]
    simp only [List.map_cons, List.map_nil, Option.some.injEq, List.cons.injEq,
      Prod.mk.injEq]
    norm_num
  have h := get_bounds_spec [0, 1, 2] 1 alignCenter
    [((-1 : ℚ)/2, 1/2), (1/2, 3/2), (3/2, 5/2)] hbs
  refine ⟨h.1, h.2 (by decide) ?_ 0 (by decide)⟩
  intro k hk
  have hk2 : k < 2 := by
    have := hk
    simp only [List.length_cons, List.length_nil] at this
    omega
  interval_cases k <;>
    norm_num [List.getD_cons_succ, List.getD_cons_zero]

/-- Claim C10: the radiation sub-dataset is assembled with group
attribute title equal to the string Clouds and variable_id equal to the
string sdu. -/
theorem radiation_attrs_spec :
    lookupKey keyTitle radiation_dataset_attrs = some valClouds ∧
    lookupKey keyVariableId radiation_dataset_attrs = some valSdu := by
  exact ⟨by decide, by decide⟩

/-- Sequential band assignment of the quality generator agrees with the
band description by cases on the latitude magnitude. -/
theorem qualityOf_eq (lat : ℚ) :
    qualityOf lat =
      (if |lat| < 30 then 0
       else if 30 < |lat| ∧ |lat| < 65 then 1
       else if 65 < |lat| then 2 else 0) := by
  simp only [qualityOf]
  split_ifs with h1 h2 h3 h4 h5 h6 <;> try rfl
  all_goals linarith

/-- Claim C5: the quality flag of a cell is 0 for latitude magnitude
below 30, 1 strictly between 30 and 65, 2 above 65, and the default 0 at
exactly 30 or 65; for a fixed latitude it does not depend on the time
position or the longitude. -/
theorem quality_spec (ntime : ℕ) (lats lons : List ℚ) (t i j : ℕ)
    (ht : t < ntime) (hi : i < lats.length) (hj : j < lons.length) :
    get3 (get_quality ntime lats lons) t i j =
      some (if |lats.getD i 0| < 30 then 0
        else if 30 < |lats.getD i 0| ∧ |lats.getD i 0| < 65 then 1
        else if 65 < |lats.getD i 0| then 2 else 0) ∧
    ∀ t2 j2, t2 < ntime → j2 < lons.length →
      get3 (get_quality ntime lats lons) t i j =
        get3 (get_quality ntime lats lons) t2 i j2 := by
  have hmain : ∀ t2 j2, t2 < ntime → j2 < lons.length →
      get3 (get_quality ntime lats lons) t2 i j2 = some (qualityOf (lats.getD i 0)) := by
    intro t2 j2 ht2 hj2
    exact get3_mk3 ntime lats.length lons.length _ t2 i j2 ht2 hi hj2
  refine ⟨?_, ?_⟩
  · rw [hmain t j ht hj, qualityOf_eq]
  · intro t2 j2 ht2 hj2
    rw [hmain t j ht hj, hmain t2 j2 ht2 hj2]

/-- Witness for claim C5 at the edge latitude 30, which keeps the
default code. -/
theorem quality_witness :
    get3 (get_quality 1 [(30 : ℚ)] [(0 : ℚ)]) 0 0 0 =
      some (if |([(30 : ℚ)].getD 0 0)| < 30 then 0
        else if 30 < |([(30 : ℚ)].getD 0 0)| ∧ |([(30 : ℚ)].getD 0 0)| < 65 then 1
        else if 65 < |([(30 : ℚ)].getD 0 0)| then 2 else 0) :=
  (quality_spec 1 [(30 : ℚ)] [(0 : ℚ)] 0 0 0 (by decide) (by decide) (by decide)).1

/-- Claim C8: each cloud fraction cell whose raw generated value lies in
the closed band from 10 to 20 becomes missing, every other cell keeps
the raw value rounded to two decimals, and the filter tests the
unrounded value, so rounding happens after the validity filter. -/
theorem cfc_filter_round_spec (s c d : ℚ → ℚ) (ntime : ℕ) (lats lons : List ℚ)
    (t i j : ℕ) (ht : t < ntime) (hi : i < lats.length) (hj : j < lons.length) :
    get3 (get_cfc s c d ntime lats lons) t i j =
      some (if 10 ≤ cfcRaw s c d t (lats.getD i 0) (lons.getD j 0) ∧
              cfcRaw s c d t (lats.getD i 0) (lons.getD j 0) ≤ 20
        then none
        else some (round2 (cfcRaw s c d t (lats.getD i 0) (lons.getD j 0)))) := by
  unfold get_cfc
  rw [get3_mk3 _ _ _ _ _ _ _ ht hi hj]
  congr 1
  unfold cfcPoint
  set r := cfcRaw s c d t (lats.getD i 0) (lons.getD j 0) with hr
  by_cases h : r < 10 ∨ 20 < r
  · have hneg : ¬(10 ≤ r ∧ r ≤ 20) := by
      intro hc
      rcases h with h | h <;> linarith [hc.1, hc.2]
    rw [if_pos h, if_neg hneg]
    rfl
  · push_neg at h
    rw [if_neg ?hif, if_pos h]
    case hif =>
      intro hc
      rcases hc with hc | hc <;> linarith [h.1, h.2]
    rfl

/-- Witness for claim C8 with identity kernels at timestep 0, where the
raw value is outside the missing band and survives rounded. -/
theorem cfc_filter_round_witness :
    get3 (get_cfc (fun x => x) (fun x => x) (fun x => x) 1 [(1 : ℚ)] [(1 : ℚ)]) 0 0 0 =
      some (if 10 ≤ cfcRaw (fun x => x) (fun x => x) (fun x => x) 0
              ([(1 : ℚ)].getD 0 0) ([(1 : ℚ)].getD 0 0) ∧
            cfcRaw (fun x => x) (fun x => x) (fun x => x) 0
              ([(1 : ℚ)].getD 0 0) ([(1 : ℚ)].getD 0 0) ≤ 20
        then none
        else some (round2 (cfcRaw (fun x => x) (fun x => x) (fun x => x) 0
          ([(1 : ℚ)].getD 0 0) ([(1 : ℚ)].getD 0 0)))) :=
  cfc_filter_round_spec (fun x => x) (fun x => x) (fun x => x) 1 [(1 : ℚ)] [(1 : ℚ)]
    0 0 0 (by decide) (by decide) (by decide)

/-- Heart mask cast to floats has one row per latitude and one column
per longitude. -/
theorem heartFloat_shape (sq : ℚ → ℚ) (rows cols : ℕ) :
    HasShape2 (heartFloat sq rows cols) rows cols := by
  unfold heartFloat heartMask
  rw [List.map_map]
  refine ⟨by simp, ?_⟩
  intro row hrow
  simp only [List.mem_map, List.mem_range] at hrow
  obtain ⟨i, _, rfl⟩ := hrow
  simp

/-- Claim C7: every field of the clouds group and of the radiation group
has shape time size by lat size by lon size; the observation count field
exists whenever the time axis is nonempty, and then has that shape; the
rotation routine is assumed shape preserving, which scipy guarantees for
reshape equal False. -/
theorem field_shapes (s c d sq : ℚ → ℚ) (rot : ℚ → List (List ℚ) → List (List ℚ))
    (ntime : ℕ) (lats lons : List ℚ)
    (hrot : ∀ a m, HasShape2 m lats.length lons.length →
      HasShape2 (rot a m) lats.length lons.length)
    (htime : 0 < ntime) :
    HasShape3 (get_cfc s c d ntime lats lons) ntime lats.length lons.length ∧
    (∃ arr, get_nobs s d lats lons ntime = some arr ∧
      HasShape3 arr ntime lats.length lons.length) ∧
    HasShape3 (get_quality ntime lats lons) ntime lats.length lons.length ∧
    HasShape3 (get_sdu sq rot ntime lats.length lons.length) ntime lats.length
      lons.length := by
  refine ⟨mk3_shape _ _ _ _, ?_, mk3_shape _ _ _ _, ?_⟩
  · obtain ⟨m, hm⟩ : ∃ m, nobs_tmax ntime = some m := by
      unfold nobs_tmax
      cases hR : List.range ntime with
      | nil =>
        exfalso
        have := List.range_eq_nil.mp hR
        omega
      | cons a as => exact ⟨as.foldl max a, rfl⟩
    have hval : get_nobs s d lats lons ntime =
        some (mk3 ntime lats.length lons.length fun t i j =>
          nobsPoint s d (lons.min?.getD 0) (lons.max?.getD 0) t m
            (lats.getD i 0) (lons.getD j 0)) := by
      unfold get_nobs
      rw [hm]
      rfl
    exact ⟨_, hval, mk3_shape _ _ _ _⟩
  · unfold get_sdu
    refine ⟨by rw [List.length_map, List.length_range], ?_⟩
    intro p hp
    simp only [List.mem_map, List.mem_range] at hp
    obtain ⟨k, _, rfl⟩ := hp
    have h2 := hrot (360 * (k : ℚ) / (ntime : ℚ)) _ (heartFloat_shape sq _ _)
    exact ⟨h2.1, h2.2⟩

/-- Witness for claim C7 on a one by one by one grid with the identity
rotation routine. -/
theorem field_shapes_witness :
    HasShape3 (get_cfc (fun x => x) (fun x => x) (fun x => x) 1 [(0 : ℚ)] [(0 : ℚ)])
      1 [(0 : ℚ)].length [(0 : ℚ)].length ∧
    (∃ arr, get_nobs (fun x => x) (fun x => x) [(0 : ℚ)] [(0 : ℚ)] 1 = some arr ∧
      HasShape3 arr 1 [(0 : ℚ)].length [(0 : ℚ)].length) ∧
    HasShape3 (get_quality 1 [(0 : ℚ)] [(0 : ℚ)]) 1 [(0 : ℚ)].length
      [(0 : ℚ)].length ∧
    HasShape3 (get_sdu (fun x => x) (fun _ m => m) 1 [(0 : ℚ)].length
      [(0 : ℚ)].length) 1 [(0 : ℚ)].length [(0 : ℚ)].length :=
  field_shapes (fun x => x) (fun x => x) (fun x => x) (fun x => x) (fun _ m => m)
    1 [(0 : ℚ)] [(0 : ℚ)] (fun _ _ h => h) (by decide)

/-- Claim C9: on a single-timestep grid the rotation angle at timestep 0
is 0 degrees, so the sunshine duration field is the unrotated heart mask
cast to 1 and 0: provided the external rotation routine is the identity
at angle 0, the field equals the mask of the implicit heart curve over
the normalized grid scaled by the extent factor. -/
theorem sdu_single_timestep (sq : ℚ → ℚ) (rot : ℚ → List (List ℚ) → List (List ℚ))
    (rows cols : ℕ)
    (hrot : rot 0 (heartFloat sq rows cols) = heartFloat sq rows cols) :
    get_sdu sq rot 1 rows cols = [heartFloat sq rows cols] ∧
    ∀ i j, i < rows → j < cols →
      get3 (get_sdu sq rot 1 rows cols) 0 i j =
        some (if (linVal (-1) 1 cols j * heart_extent) ^ 2 +
            (5 * (linVal 1 (-1) rows i * heart_extent) / 4 -
              sq |linVal (-1) 1 cols j * heart_extent|) ^ 2 - 1 ≤ 0
          then 1 else 0) := by
  have h1 : get_sdu sq rot 1 rows cols = [heartFloat sq rows cols] := by
    unfold get_sdu
    rw [show List.range 1 = [0] from rfl]
    simp only [List.map_cons, List.map_nil, Nat.cast_zero, Nat.cast_one, mul_zero,
      zero_div]
    rw [hrot]
  refine ⟨h1, ?_⟩
  intro i j hi hj
  rw [h1]
  unfold get3 heartFloat heartMask
  rw [List.map_map]
  simp only [List.getElem?_cons_zero, Option.some_bind, List.getElem?_map,
    List.getElem?_range, hi, hj, Function.comp_apply, Option.map_some']
  simp only [heartVal, decide_eq_true_eq]

/-- Witness for claim C9 on a two by two grid, with a zero square root
stub and the identity rotation routine. -/
theorem sdu_single_timestep_witness :
    get_sdu (fun _ => 0) (fun _ m => m) 1 2 2 = [heartFloat (fun _ => 0) 2 2] ∧
    get3 (get_sdu (fun _ => 0) (fun _ m => m) 1 2 2) 0 0 0 =
      some (if (linVal (-1) 1 2 0 * heart_extent) ^ 2 +
          (5 * (linVal 1 (-1) 2 0 * heart_extent) / 4 -
            (fun _ => (0 : ℚ)) |linVal (-1) 1 2 0 * heart_extent|) ^ 2 - 1 ≤ 0
        then 1 else 0) :=
  ⟨(sdu_single_timestep (fun _ => 0) (fun _ m => m) 2 2 rfl).1,
   (sdu_single_timestep (fun _ => 0) (fun _ m => m) 2 2 rfl).2 0 0
     (by decide) (by decide)⟩

/-- Lookup misses every association list whose keys avoid the name. -/
theorem lookupKey_eq_none {α : Type} (nm : String) (l : List (String × α))
    (h : nm ∉ l.map Prod.fst) : lookupKey nm l = none := by
  induction l with
  | nil => rfl
  | cons p rest ih =>
    simp only [List.map_cons, List.mem_cons] at h
    push_neg at h
    unfold lookupKey
    rw [if_neg h.1]
    exact ih h.2

/-- Variables absent from the fill-value map are untouched by the
masking fold. -/
theorem foldl_maskStep_vars_none (time ttm : List ℚ) (l : List (String × Option ℚ))
    (nm : String) :
    ∀ acc : DsGroup, lookupKey nm l = none →
      (l.foldl (maskStep time ttm) acc).vars nm = acc.vars nm := by
  induction l with
  | nil => intro acc _; rfl
  | cons p rest ih =>
    intro acc h
    unfold lookupKey at h
    by_cases hc : nm = p.1
    · rw [if_pos hc] at h
      exact Option.noConfusion h
    · rw [if_neg hc] at h
      rw [List.foldl_cons, ih (maskStep time ttm acc p) h]
      simp only [maskStep]
      rw [if_neg hc]

/-- A variable of the fill-value map comes out of the masking fold as
its masked form, built from the value the variable had when the fold
reached it, which under unique keys is the original value. -/
theorem foldl_maskStep_vars_some (time ttm : List ℚ) (l : List (String × Option ℚ))
    (nm : String) :
    ∀ (acc : DsGroup) (fill : Option ℚ), (l.map Prod.fst).Nodup →
      lookupKey nm l = some fill →
      (l.foldl (maskStep time ttm) acc).vars nm =
        maskedVar time ttm fill (acc.vars nm) := by
  induction l with
  | nil =>
    intro acc fill _ h
    exact Option.noConfusion h
  | cons p rest ih =>
    intro acc fill hnd h
    simp only [List.map_cons, List.nodup_cons] at hnd
    unfold lookupKey at h
    rw [List.foldl_cons]
    by_cases hc : nm = p.1
    · rw [if_pos hc] at h
      have hfill : p.2 = fill := Option.some.inj h
      have hmiss : lookupKey nm rest = none := by
        refine lookupKey_eq_none nm rest ?_
        rw [hc]
        exact hnd.1
      rw [foldl_maskStep_vars_none time ttm rest nm (maskStep time ttm acc p) hmiss]
      simp only [maskStep]
      rw [if_pos hc, hc, hfill]
    · rw [if_neg hc] at h
      rw [ih (maskStep time ttm acc p) fill hnd.2 h]
      have hacc : (maskStep time ttm acc p).vars nm = acc.vars nm := by
        simp only [maskStep]
        rw [if_neg hc]
      rw [hacc]

/-- With pairwise distinct time values and in-range void positions, a
time value sits among the gathered void time values exactly when its
position is a void position. -/
theorem mem_voidTimes_iff (time : List ℚ) (void : List ℕ) (hnd : time.Nodup)
    (hrange : ∀ i ∈ void, i < time.length) (t : ℕ) (ht : t < time.length) :
    time.getD t 0 ∈ void.map (fun i : ℕ => time.getD i 0) ↔ t ∈ void := by
  constructor
  · intro h
    obtain ⟨i2, hi2, heq⟩ := List.mem_map.1 h
    have hi2r : i2 < time.length := hrange i2 hi2
    rw [List.getD_eq_getElem _ _ hi2r, List.getD_eq_getElem _ _ ht] at heq
    have hij := (List.Nodup.getElem_inj_iff hnd).1 heq
    exact hij ▸ hi2
  · intro h
    exact List.mem_map.2 ⟨t, h, rfl⟩

/-- Claim C1: with pairwise distinct time values and void positions in
the valid index range, masking succeeds, sets each variable named in the
fill-value map to its fill value at exactly the void time positions at
every lat and lon index, leaves it unchanged at every other time
position, and leaves variables outside the map unchanged everywhere. -/
theorem mask_timestamps_spec (void : List ℕ) (ds : DsGroup)
    (toMask : List (String × Option ℚ))
    (hnd : ds.time.Nodup) (hrange : ∀ i ∈ void, i < ds.time.length)
    (hkeys : (toMask.map Prod.fst).Nodup) :
    ∃ ds2, mask_timestamps void ds toMask = some ds2 ∧
      (∀ nm fill, lookupKey nm toMask = some fill →
        ∀ t i j, t < ds.time.length →
          ds2.vars nm t i j = if t ∈ void then fill else ds.vars nm t i j) ∧
      (∀ nm, lookupKey nm toMask = none → ds2.vars nm = ds.vars nm) := by
  have hall : void.all (fun i => decide (i < ds.time.length)) = true := by
    rw [List.all_eq_true]
    intro i hi
    exact decide_eq_true (hrange i hi)
  refine ⟨toMask.foldl (maskStep ds.time (void.map fun i : ℕ => ds.time.getD i 0)) ds,
    ?_, ?_, ?_⟩
  · unfold mask_timestamps
    rw [if_pos hall]
  · intro nm fill hf t i j ht
    rw [foldl_maskStep_vars_some ds.time (void.map fun i : ℕ => ds.time.getD i 0)
      toMask nm ds fill hkeys hf]
    unfold maskedVar
    have hiff := mem_voidTimes_iff ds.time void hnd hrange t ht
    by_cases hc : t ∈ void
    · rw [if_pos (hiff.2 hc), if_pos hc]
    · rw [if_neg (fun hx => hc (hiff.1 hx)), if_neg hc]
  · intro nm hf
    exact foldl_maskStep_vars_none ds.time _ toMask nm ds hf

/-- Witness for claim C1 on the concrete group dsEx with void position 1
and variable a masked to NaN: position 1 becomes none, positions 0 and 2
keep their values, and variable b is untouched. -/
theorem mask_timestamps_witness :
    ∃ ds2, mask_timestamps [1] dsEx [(nmA, none)] = some ds2 ∧
      ds2.vars nmA 1 0 0 = none ∧
      ds2.vars nmA 0 0 0 = some 0 ∧
      ds2.vars nmA 2 1 1 = some 4 ∧
      ds2.vars nmB 0 0 0 = some 99 := by
  obtain ⟨ds2, hds, hsome, hnone⟩ := mask_timestamps_spec [1] dsEx [(nmA, none)]
    (by decide) (by decide) (by decide)
  have hA := hsome nmA none (by decide)
  refine ⟨ds2, hds, ?_, ?_, ?_, ?_⟩
  · have h1 := hA 1 0 0 (by decide)
    simpa using h1
  · have h0 := hA 0 0 0 (by decide)
    rw [h0, if_neg (by decide)]
    show dsEx.vars nmA 0 0 0 = some 0
    simp only [dsEx]
    norm_num
  · have h2 := hA 2 1 1 (by decide)
    rw [h2, if_neg (by decide)]
    show dsEx.vars nmA 2 1 1 = some 4
    simp only [dsEx]
    norm_num
  · have hB := hnone nmB (by decide)
    rw [hB]
    show dsEx.vars nmB 0 0 0 = some 99
    simp only [dsEx]
    rw [if_neg (by decide)]

end Gerda
